import Mathlib

/-!
Shallow embedding of the listing-scraper server (server.js and its
near-duplicate variants src/unnamed/part_000, part_001, part_002).

Pure string helpers (cleanText, moneyToNumber, formatMoney,
ensureMonthlyFeesString, normalizeAreaToFt2, looksLikeRealAddress,
sanitizeAddressOrBlank, makeCacheKey, looksBlocked, extractMoneyFromText,
parseDuProprioFromStructured) are embedded directly, with the JavaScript
regular expressions implemented as explicit scanning functions over
character lists.  JavaScript numbers are idealised as rationals.  Stateful
parts (the result cache, the in-flight request map, the counting
semaphore) are embedded as explicit state machines with atomic steps at
the event-loop granularity of the original code.
-/

namespace CleoSpec

/-- Characters that the JavaScript regex class backslash-s matches
(the forms used by this code: blanks, tabs, line breaks, NBSP, BOM). -/
def jsWsChar (c : Char) : Bool :=
  c = ' ' || c = '\t' || c = '\n' || c = '\r' ||
  c = '\u000B' || c = '\u000C' || c = ' ' || c = '﻿'

/-- JavaScript regex word character (the backslash-w class): ASCII letters,
digits and underscore.  Accented letters are not word characters. -/
def jsWordChar (c : Char) : Bool :=
  ('A' ≤ c && c ≤ 'Z') || ('a' ≤ c && c ≤ 'z') || ('0' ≤ c && c ≤ '9') || c = '_'

/-- Lower-casing used for case-insensitive regex matching; ASCII plus the
accented letters appearing in the source patterns. -/
def lowerCI (c : Char) : Char :=
  if 'A' ≤ c && c ≤ 'Z' then Char.ofNat (c.toNat + 32)
  else if c = 'É' then 'é'
  else if c = 'Ô' then 'ô'
  else if c = 'Î' then 'î'
  else c

/-- Replace every maximal whitespace run with a single blank, as in the
replace step of cleanText in server.js (the blank is emitted at the end
of each run, which yields the same list). -/
def collapseWs : List Char → List Char
  | [] => []
  | c :: rest =>
    if jsWsChar c then
      match rest with
      | [] => [' ']
      | d :: _ => if jsWsChar d then collapseWs rest else ' ' :: collapseWs rest
    else c :: collapseWs rest

/-- Drop trailing whitespace, as the end-of-string half of String.trim. -/
def trimEndWs (l : List Char) : List Char :=
  (l.reverse.dropWhile jsWsChar).reverse

/-- JavaScript String.trim on character lists. -/
def trimWsL (l : List Char) : List Char :=
  trimEndWs (l.dropWhile jsWsChar)

/-- cleanText from server.js: collapse whitespace runs to single blanks,
then trim both ends. -/
def cleanTextL (l : List Char) : List Char :=
  trimWsL (collapseWs l)

/-- cleanText lifted to String. -/
def cleanText (s : String) : String :=
  String.mk (cleanTextL s.data)

/-- JavaScript String.trim lifted to String (used by makeCacheKey). -/
def jsTrim (s : String) : String :=
  String.mk (trimWsL s.data)

/-! Number parsing: moneyToNumber strips every character outside
the class digits-and-period and feeds the remainder to Number().
On such a remainder, Number() returns 0 for the empty string, NaN when
there are two or more periods or the string is a single period, and the
decimal value otherwise.  JavaScript numbers are idealised as rationals. -/

/-- Numeric value of a list of decimal digit characters (empty list is 0),
as the integer part scan of Number(). -/
def natOfDigits (l : List Char) : Nat :=
  l.foldl (fun a c => a * 10 + (c.toNat - 48)) 0

/-- Semantics of JavaScript Number() restricted to strings made of digits
and periods (the image of the strip in moneyToNumber); none stands for NaN. -/
def jsNumOfDigitsDots (l : List Char) : Option ℚ :=
  if l = [] then some 0
  else if 2 ≤ l.count '.' then none
  else if l = ['.'] then none
  else
    let intPart := l.takeWhile (fun c => c ≠ '.')
    let rest := l.dropWhile (fun c => c ≠ '.')
    let fracPart := rest.tail
    some ((natOfDigits intPart : ℚ) + (natOfDigits fracPart : ℚ) / (10 ^ fracPart.length : ℚ))

/-- The strip step of moneyToNumber: keep only digits and periods. -/
def stripMoneyChars (l : List Char) : List Char :=
  l.filter (fun c => c.isDigit || c = '.')

/-- moneyToNumber from server.js: Number(String(s).replace of everything
outside digits-and-period); null when the result is not finite. -/
def moneyToNumber (s : String) : Option ℚ :=
  jsNumOfDigitsDots (stripMoneyChars s.data)

/-- JavaScript Math.round for the non-negative amounts this code feeds it:
floor of the argument plus one half. -/
def jsRound (q : ℚ) : ℤ :=
  Int.floor (q + 1 / 2)

/-- Decimal digit character for a remainder below ten. -/
def digitChar (n : Nat) : Char :=
  Char.ofNat (48 + n)

/-- Reversed decimal digit list of a number, driven by a fuel argument so
the recursion is structural; fuel at least the number itself suffices. -/
def natDigitsAux : Nat → Nat → List Char
  | 0, _ => []
  | fuel + 1, n => if n = 0 then [] else digitChar (n % 10) :: natDigitsAux fuel (n / 10)

/-- Reversed decimal digit list, with 0 rendered as the digit zero. -/
def natDigitsR (n : Nat) : List Char :=
  if n = 0 then ['0'] else natDigitsAux n n

/-- Insert a comma after every three characters of a reversed digit list,
producing the reversed grouped form used by toLocaleString. -/
def groupRev : List Char → List Char
  | a :: b :: c :: d :: rest => a :: b :: c :: ',' :: groupRev (d :: rest)
  | l => l

/-- formatMoney from server.js at the integer-valued amounts their call
sites produce: currency symbol plus comma-grouped digits (en-CA renders
CAD with a bare dollar sign and no decimals).  The rounding to zero
fraction digits of toLocaleString is jsRound. -/
def formatMoney (q : ℚ) : String :=
  String.mk ('$' :: (groupRev (natDigitsR (jsRound q).toNat)).reverse)

/-! Regex scanners.  Each JavaScript regular expression of the source is
implemented as an explicit left-to-right scan; the patterns used here are
deterministic under maximal munch because the character class of each
starred part is disjoint from the first character of what follows. -/

/-- Case-insensitive match of a pattern as a prefix, returning the rest. -/
def ciStrip : List Char → List Char → Option (List Char)
  | [], l => some l
  | _ :: _, [] => none
  | a :: w, b :: l => if lowerCI a = lowerCI b then ciStrip w l else none

/-- Case-insensitive prefix test. -/
def ciPrefHolds (w l : List Char) : Bool :=
  (ciStrip w l).isSome

/-- Substring containment (JavaScript String.includes). -/
def containsSub (pat : List Char) : List Char → Bool
  | [] => pat.isEmpty
  | c :: rest => pat.isPrefixOf (c :: rest) || containsSub pat rest

/-- Case-insensitive substring containment. -/
def containsSubCI (pat : List Char) : List Char → Bool
  | [] => pat.isEmpty
  | c :: rest => ciPrefHolds pat (c :: rest) || containsSubCI pat rest

/-- Scan for a slash, optional whitespace, then a literal, as the tests
slash-whitespace-month and slash-whitespace-year of the source. -/
def slashThenWordTest (w : List Char) : List Char → Bool
  | [] => false
  | c :: rest =>
    (c = '/' && ciPrefHolds w (rest.dropWhile jsWsChar)) || slashThenWordTest w rest

/-- Word character of an optional char, for boundary computation. -/
def isWordOpt : Option Char → Bool
  | none => false
  | some c => jsWordChar c

/-- JavaScript regex word boundary between two optional characters. -/
def jsBoundary (a b : Option Char) : Bool :=
  isWordOpt a != isWordOpt b

/-- Scan for a word-boundary-delimited, case-insensitive occurrence of a
word (or phrase), carrying the previous character for the left boundary.
The right boundary is computed from the last pattern character, which has
the same word-character status as any character it matches
case-insensitively. -/
def scanWordCIAux (w : List Char) (lastW : Char) : Option Char → List Char → Bool
  | _, [] => false
  | pre, c :: rest =>
    (jsBoundary pre (some c) &&
      (match ciStrip w (c :: rest) with
       | some rem => jsBoundary (some lastW) rem.head?
       | none => false)) || scanWordCIAux w lastW (some c) rest

/-- Boundary-delimited case-insensitive word test over a whole list. -/
def wordTestCI (w : List Char) (l : List Char) : Bool :=
  match w.getLast? with
  | none => false
  | some lastW => scanWordCIAux w lastW none l

/-- Test for the monthly patterns of ensureMonthlyFeesString. -/
def monthTest (l : List Char) : Bool :=
  slashThenWordTest "month".data l || wordTestCI "monthly".data l

/-- Test for the yearly patterns of ensureMonthlyFeesString. -/
def yearTest (l : List Char) : Bool :=
  slashThenWordTest "year".data l || wordTestCI "yearly".data l || wordTestCI "year".data l

/-- ensureMonthlyFeesString from server.js: keep text that already reads as
monthly; convert yearly amounts (and bare amounts at or above 1200) to a
formatted monthly figure; otherwise return the cleaned text. -/
def ensureMonthlyFeesString (raw : String) : String :=
  let t := cleanText raw
  if t = "" ∨ t = "N/A" then "N/A"
  else if monthTest t.data then t
  else if yearTest t.data then
    match moneyToNumber t with
    | some n => formatMoney ((jsRound (n / 12) : ℤ) : ℚ) ++ " / month"
    | none => t
  else
    match moneyToNumber t with
    | some n =>
      if 1200 ≤ n then formatMoney ((jsRound (n / 12) : ℤ) : ℚ) ++ " / month" else t
    | none => t

/-- Character class digits-or-comma of the area regexes. -/
def isDigitComma (c : Char) : Bool :=
  c.isDigit || c = ','

/-- Leftmost match of the pattern digits-or-commas, optional whitespace,
literal (case-insensitive), returning the captured digit group. -/
def findNumGroupThen (lit : List Char) : List Char → Option (List Char)
  | [] => none
  | c :: rest =>
    (if isDigitComma c then
      let run := (c :: rest).takeWhile isDigitComma
      let after := ((c :: rest).dropWhile isDigitComma).dropWhile jsWsChar
      if ciPrefHolds lit after then some run else none
    else none).orElse (fun _ => findNumGroupThen lit rest)

/-- normalizeAreaToFt2 from server.js: rewrite a digits-sqft match to the
canonical ft-squared form, rewrite a digits-ft-squared match to the bare
captured group, and otherwise return the cleaned text (null if empty). -/
def normalizeAreaToFt2 (areaStr : String) : Option String :=
  let t := cleanText areaStr
  if t = "" then none
  else
    match findNumGroupThen "sqft".data t.data with
    | some cap => some (String.mk cap ++ " ft²")
    | none =>
      match findNumGroupThen "ft²".data t.data with
      | some cap => some (String.mk cap ++ " ft²")
      | none =>
        if containsSubCI "ft²".data t.data || containsSubCI "m²".data t.data then some t
        else some t

/-! Address validation. -/

/-- The alternatives of the street-word regex of looksLikeRealAddress,
with the optional group of av expanded into its two forms. -/
def streetWords : List (List Char) :=
  ["rue".data, "av".data, "avenue".data, "boulevard".data, "boul".data,
   "chemin".data, "ch".data, "route".data, "rang".data, "place".data,
   "allee".data, "allée".data, "impasse".data, "cote".data, "côte".data,
   "street".data, "st".data, "road".data, "rd".data, "avenue".data,
   "ave".data, "boulevard".data, "blvd".data, "drive".data, "dr".data,
   "lane".data, "ln".data, "court".data, "ct".data, "way".data]

/-- The alternatives of the marketing-phrase regex of looksLikeRealAddress,
with the optional hyphen-or-blank group expanded. -/
def marketingPhrases : List (List Char) :=
  ["take a look".data, "discover".data, "invites you".data, "for sale".data,
   "commissionfree".data, "commission-free".data, "commission free".data]

/-- Any of the words matches with word boundaries, case-insensitively. -/
def anyWordCI (ws : List (List Char)) (l : List Char) : Bool :=
  ws.any (fun w => wordTestCI w l)

/-- Number of maximal non-whitespace runs: the length of
split-on-whitespace filtered to non-empty tokens. -/
def wordCountAux : Bool → List Char → Nat
  | _, [] => 0
  | prevWs, c :: rest =>
    if jsWsChar c then wordCountAux true rest
    else (if prevWs then 1 else 0) + wordCountAux false rest

/-- Word count used by the length cap of looksLikeRealAddress. -/
def wordCount (l : List Char) : Nat :=
  wordCountAux true l

/-- looksLikeRealAddress from server.js. -/
def looksLikeRealAddress (s : String) : Bool :=
  let t := cleanText s
  let l := t.data
  if l = [] then false
  else if l.any (fun c => c = '!' || c = '?') then false
  else if 2 ≤ l.count '.' then false
  else if !(l.any Char.isDigit) then false
  else if !(anyWordCI streetWords l) then false
  else if 18 < wordCount l then false
  else if anyWordCI marketingPhrases l then false
  else true

/-- sanitizeAddressOrBlank from server.js. -/
def sanitizeAddressOrBlank (s : String) : String :=
  let t := cleanText s
  if looksLikeRealAddress t then t else ""

/-! Cache keys and the block-page test. -/

/-- makeCacheKey from server.js: url, a fixed separator, trimmed hint. -/
def makeCacheKey (url addressHint : String) : String :=
  url ++ "::hint=" ++ jsTrim addressHint

/-- The separator makeCacheKey puts between url and hint. -/
def sepL : List Char := "::hint=".data

/-- looksBlocked from server.js: empty body, or a known challenge marker
in the lower-cased body. -/
def looksBlocked (html : String) : Bool :=
  let t := html.data.map lowerCI
  if t = [] then true
  else
    containsSub "captcha".data t || containsSub "access denied".data t ||
    containsSub "please enable javascript".data t

/-! The listing record and the DuProprio structured parser. -/

/-- Canonical listing record shared by both site extractors.  JavaScript
null is Option.none; numeric fields are idealised rationals. -/
structure Listing where
  url : String
  source : String
  address : String
  price : String
  beds : Option ℚ
  baths : Option ℚ
  levels : Option ℚ
  area : Option String
  condoFees : String
  contact : String
deriving DecidableEq, Repr

/-- extractMoneyFromText from server.js: leftmost match of a dollar sign,
optional whitespace, then at least three digit-whitespace-comma
characters; none models the empty-string result. -/
def extractMoneyScan : List Char → Option (List Char)
  | [] => none
  | c :: rest =>
    if c = '$' then
      let run := rest.takeWhile (fun d => d.isDigit || jsWsChar d || d = ',')
      if 3 ≤ run.length then some (c :: run) else extractMoneyScan rest
    else extractMoneyScan rest

/-- extractMoneyFromText lifted to String. -/
def extractMoneyFromText (s : String) : Option String :=
  match extractMoneyScan (cleanText s).data with
  | some m => some (cleanText (String.mk m))
  | none => none

/-- The payload returned by the in-page structured evaluation for
DuProprio (fetchDuProprioStructuredPlaywright). -/
structure DPStructured where
  metaAmount : String
  domPriceText : String
  bedsText : String
  bathsText : String
  dimText : String
  condoFeesText : String
deriving DecidableEq, Repr

/-- parseDuProprioFromStructured from server.js: a pure mapping from the
structured payload to the listing record. -/
def parseDuProprioFromStructured (url : String) (structured : DPStructured) : Listing :=
  let domPrice := cleanText structured.domPriceText
  let price1 := if domPrice ≠ "" then domPrice else "N/A"
  let metaAmount := cleanText structured.metaAmount
  let price2 :=
    if price1 = "N/A" then
      if metaAmount ≠ "" then
        match moneyToNumber metaAmount with
        | some n => formatMoney n
        | none => price1
      else price1
    else price1
  let b1 := cleanText structured.bedsText
  let b2 := cleanText structured.bathsText
  let d1 := cleanText structured.dimText
  let nb := if b1 ≠ "" then moneyToNumber b1 else none
  let na := if b2 ≠ "" then moneyToNumber b2 else none
  let area := if d1 ≠ "" then normalizeAreaToFt2 d1 else none
  let cf0 := cleanText structured.condoFeesText
  let cf1 := if cf0 ≠ "" then cf0 else "N/A"
  let cf2 :=
    if cf1 ≠ "" && cf1 ≠ "N/A" && !(containsSub ['$'] cf1.data) then
      match extractMoneyFromText cf1 with
      | some m => m
      | none => cf1
    else cf1
  { url := url, source := "DuProprio", address := "", price := price2,
    beds := nb, baths := na, levels := none, area := area,
    condoFees := ensureMonthlyFeesString cf2, contact := "N/A" }

/-! Orchestrators.  The direct HTTP fetch never throws (its catch returns
an ok-false result); the HTML parsers run over cheerio and are embedded
as opaque function fields of the environment; the rendered fetch and the
structured fetch can throw. -/

deriving instance DecidableEq for Except

/-- Result shape of fetchHtmlDirect: an ok flag and the body. -/
structure FetchResult where
  ok : Bool
  html : String

/-- Environment of one scrapeCentris call: the direct fetch outcome, the
pure HTML parser for this url (parseCentrisFromHtml), and the rendered
fetch outcome. -/
structure CEnv where
  direct : FetchResult
  parseHtml : String → Listing
  rendered : Except String String

/-- scrapeCentris from server.js: direct fetch, then rendered fetch; the
direct tier advances only on fetch failure or a blocked body, and the
rendered record is returned unconditionally. -/
def scrapeCentris (env : CEnv) : Except String Listing :=
  if env.direct.ok && !looksBlocked env.direct.html then
    Except.ok (env.parseHtml env.direct.html)
  else
    env.rendered.map env.parseHtml

/-- Environment of one scrapeDuProprio call: direct fetch outcome, pure
HTML parser for this url (parseDuProprioFromHtml, used by both the direct
and the rendered tier), structured evaluation outcome (none models a
throw), and rendered fetch outcome. -/
structure DPEnv where
  url : String
  direct : FetchResult
  parseHtml : String → Listing
  structured : Option DPStructured
  rendered : Except String String

/-- The per-tier acceptance test of scrapeDuProprio: price present, or
beds present, or area present. -/
def dpQuality (p : Listing) : Bool :=
  p.price ≠ "N/A" || p.beds.isSome || p.area.isSome

/-- scrapeDuProprio from server.js: direct fetch, then structured
evaluation, then rendered fetch; the first two tiers advance on fetch
failure, blocked body, throw, or a record failing dpQuality, and the
rendered record is returned unconditionally. -/
def scrapeDuProprio (env : DPEnv) : Except String Listing :=
  let tier3 : Except String Listing := env.rendered.map env.parseHtml
  let tier23 : Except String Listing :=
    match env.structured with
    | some s =>
      let parsed := parseDuProprioFromStructured env.url s
      if dpQuality parsed then Except.ok parsed else tier3
    | none => tier3
  if env.direct.ok && !looksBlocked env.direct.html then
    let parsed := env.parseHtml env.direct.html
    if dpQuality parsed then Except.ok parsed else tier23
  else tier23

/-- Modelled from the wording of claim C1: an orchestrator that tries the
tiers in the order direct fetch, rendered fetch, structured evaluation,
advancing when a tier fetch fails or its record fails the predicate, and
returning the first record that passes. -/
def claimTierOrderDuProprio (env : DPEnv) : Except String Listing :=
  let structuredTier : Except String Listing :=
    match env.structured with
    | some s =>
      let parsed := parseDuProprioFromStructured env.url s
      if dpQuality parsed then Except.ok parsed else Except.error "all tiers failed"
    | none => Except.error "all tiers failed"
  if env.direct.ok && !looksBlocked env.direct.html
      && dpQuality (env.parseHtml env.direct.html) then
    Except.ok (env.parseHtml env.direct.html)
  else
    match env.rendered with
    | Except.ok html =>
      if dpQuality (env.parseHtml html) then Except.ok (env.parseHtml html)
      else structuredTier
    | Except.error _ => structuredTier

/-! Result cache (server.js getCached and setCached; part_001
getCachedWithState).  The JavaScript Map is embedded as a function map;
timestamps are milliseconds as naturals. -/

/-- One cache slot: creation timestamp and stored record. -/
structure CacheEntry where
  ts : Nat
  data : Listing
deriving DecidableEq

/-- The cache: key to optional entry. -/
def CacheMap : Type := String → Option CacheEntry

/-- The empty cache. -/
def emptyCache : CacheMap := fun _ => none

/-- setCached from server.js. -/
def setCached (now : Nat) (key : String) (data : Listing) (cache : CacheMap) : CacheMap :=
  fun k => if k = key then some { ts := now, data := data } else cache k

/-- The six-hour TTL of server.js. -/
def CACHE_TTL_MS : Nat := 6 * 60 * 60 * 1000

/-- getCached from server.js: returns the stored record while within the
TTL, and on an expired entry deletes it and returns null.  The result
pairs the returned value with the possibly updated cache. -/
def getCached (now : Nat) (cache : CacheMap) (key : String) :
    Option Listing × CacheMap :=
  match cache key with
  | none => (none, cache)
  | some hit =>
    if CACHE_TTL_MS < now - hit.ts then
      (none, fun k => if k = key then none else cache k)
    else
      (some hit.data, cache)

/-- The fresh tier bound of part_001. -/
def FRESH_TTL_MS : Nat := 6 * 60 * 60 * 1000

/-- The stale tier bound of part_001. -/
def STALE_TTL_MS : Nat := 72 * 60 * 60 * 1000

/-- Cache tiers reported by getCachedWithState. -/
inductive CacheTier where
  | fresh
  | stale
  | miss
deriving DecidableEq, Repr

/-- getCachedWithState from part_001: fresh within six hours, stale within
seventy-two, otherwise delete and miss. -/
def getCachedWithState (now : Nat) (cache : CacheMap) (key : String) :
    Option Listing × CacheTier × CacheMap :=
  match cache key with
  | none => (none, CacheTier.miss, cache)
  | some hit =>
    if now - hit.ts ≤ FRESH_TTL_MS then (some hit.data, CacheTier.fresh, cache)
    else if now - hit.ts ≤ STALE_TTL_MS then (some hit.data, CacheTier.stale, cache)
    else (none, CacheTier.miss, fun k => if k = key then none else cache k)

/-! The cache-write step at the end of each request pipeline.  The main
server.js and part_002 guard the write with a looksGood predicate;
part_000 and part_001 write unconditionally. -/

/-- The address rewrite done before caching: scraped address if it
validates, else the cleaned caller hint, else the variant sentinel. -/
def finalizeListing (addressHint : String) (sentinel : String) (listing : Listing) : Listing :=
  let safe := sanitizeAddressOrBlank listing.address
  let finalAddress :=
    if safe ≠ "" then safe
    else if cleanText addressHint ≠ "" then cleanText addressHint
    else sentinel
  { listing with address := finalAddress }

/-- The looksGood predicate of the main server.js pipeline. -/
def looksGoodMain (r : Listing) : Bool :=
  r.price ≠ "N/A" || r.beds.isSome || r.baths.isSome ||
  (match r.area with
   | some a => a ≠ "" && a ≠ "N/A"
   | none => false)

/-- The looksGood predicate of the part_002 pipeline, which also accepts
a present condo fee. -/
def looksGoodV2 (r : Listing) : Bool :=
  looksGoodMain r || (r.condoFees ≠ "" && r.condoFees ≠ "N/A")

/-- The cache write of the main server.js pipeline: finalize the address,
then cache only when looksGoodMain holds. -/
def cacheAfterScrapeMain (now : Nat) (cache : CacheMap) (key addressHint : String)
    (listing : Listing) : CacheMap :=
  let fl := finalizeListing addressHint "N/A" listing
  if looksGoodMain fl then setCached now key fl cache else cache

/-- The cache write of the part_002 pipeline. -/
def cacheAfterScrapeV2 (now : Nat) (cache : CacheMap) (key addressHint : String)
    (listing : Listing) : CacheMap :=
  let fl := finalizeListing addressHint "N/A" listing
  if looksGoodV2 fl then setCached now key fl cache else cache

/-- The cache write of the part_000 pipeline (part_001 is identical):
every successfully scraped record is cached, with the em-dash sentinel. -/
def cacheAfterScrapeV0 (now : Nat) (cache : CacheMap) (key addressHint : String)
    (listing : Listing) : CacheMap :=
  setCached now key (finalizeListing addressHint "—" listing) cache

/-- Modelled from the wording of claim C3: at least one of price, beds,
baths, area, or condo fee is a real value rather than a sentinel. -/
def claimLooksGood (r : Listing) : Bool :=
  (r.price ≠ "N/A" && r.price ≠ "—" && r.price ≠ "") ||
  r.beds.isSome || r.baths.isSome ||
  (match r.area with
   | some a => a ≠ "" && a ≠ "N/A" && a ≠ "—"
   | none => false) ||
  (r.condoFees ≠ "" && r.condoFees ≠ "N/A" && r.condoFees ≠ "—")

/-! In-flight request coordination (the /api/listing handler of
server.js).  The handler prologue runs synchronously on the event loop:
cache check, in-flight check, then operation creation and registration
are one atomic step; operation completion together with the finally
deletion of the in-flight entry is another. -/

/-- State of the in-flight coordinator: the in-flight map, the running
extractions (operation id and key), and the next fresh operation id. -/
structure DedupState where
  inflightM : String → Option Nat
  running : List (Nat × String)
  nextOp : Nat

/-- What the handler prologue did for one arriving request. -/
inductive ReqAction where
  | cachedHit
  | awaited (o : Nat)
  | started (o : Nat)
deriving DecidableEq, Repr

/-- The initial coordinator state. -/
def dedupInit : DedupState :=
  { inflightM := fun _ => none, running := [], nextOp := 0 }

/-- The handler prologue of server.js for one request: serve from cache
unless refresh; else await an existing in-flight operation unless
refresh; else start and register a new extraction.  hasCached abstracts
the getCached outcome at this instant. -/
def arriveStep (hasCached : String → Bool) (s : DedupState) (key : String)
    (refresh : Bool) : DedupState × ReqAction :=
  if !refresh && hasCached key then (s, ReqAction.cachedHit)
  else
    match (if refresh then none else s.inflightM key) with
    | some o => (s, ReqAction.awaited o)
    | none =>
      let o := s.nextOp
      ({ inflightM := fun k => if k = key then some o else s.inflightM k,
         running := (o, key) :: s.running,
         nextOp := o + 1 }, ReqAction.started o)

/-- Key of a running operation id. -/
def findOpKey : List (Nat × String) → Nat → Option String
  | [], _ => none
  | p :: rest, o => if p.1 = o then some p.2 else findOpKey rest o

/-- Completion of operation o (successfully or not): the operation leaves
the running set and the finally clause of its creator deletes the
in-flight entry of its key, whatever that entry now holds. -/
def completeStep (s : DedupState) (o : Nat) (_ok : Bool) : DedupState :=
  match findOpKey s.running o with
  | none => s
  | some key =>
    { inflightM := fun k => if k = key then none else s.inflightM k,
      running := s.running.filter (fun p => p.1 ≠ o),
      nextOp := s.nextOp }

/-- Events of the coordinator model. -/
inductive DedupEv where
  | arrive (key : String) (refresh : Bool)
  | complete (o : Nat) (ok : Bool)

/-- One event step. -/
def dedupStep (hasCached : String → Bool) (s : DedupState) : DedupEv → DedupState
  | DedupEv.arrive k r => (arriveStep hasCached s k r).1
  | DedupEv.complete o ok => completeStep s o ok

/-- Run a trace of events from the initial state. -/
def dedupRun (hasCached : String → Bool) (evs : List DedupEv) : DedupState :=
  evs.foldl (dedupStep hasCached) dedupInit

/-- Number of running extractions for one key. -/
def runningCountKey (s : DedupState) (k : String) : Nat :=
  (s.running.filter (fun p => p.2 = k)).length

/-! The counting semaphore (createSemaphore).  An acquire that finds the
gate full pushes a resolver and suspends; release clamps the count at
zero, then wakes the head waiter, whose own increment runs later as a
separate continuation.  The three atomic steps of the event loop are
acquire, release, and the woken waiter resuming. -/

/-- Semaphore state: the active count (a JavaScript number, so an
integer), the waiter queue, and waiters woken but not yet resumed. -/
structure SemState where
  active : Int
  queue : List Nat
  woken : List Nat
deriving DecidableEq, Repr

/-- Events of the semaphore model. -/
inductive SemEv where
  | acquire (c : Nat)
  | release
  | resume (c : Nat)

/-- The initial semaphore state. -/
def semInit : SemState :=
  { active := 0, queue := [], woken := [] }

/-- One event step of createSemaphore with bound mx. -/
def semStep (mx : Int) (s : SemState) : SemEv → SemState
  | SemEv.acquire c =>
    if s.active < mx then { s with active := s.active + 1 }
    else { s with queue := s.queue ++ [c] }
  | SemEv.release =>
    let a := max 0 (s.active - 1)
    match s.queue with
    | [] => { s with active := a }
    | c :: rest => { active := a, queue := rest, woken := s.woken ++ [c] }
  | SemEv.resume c =>
    if s.woken.contains c then
      { s with active := s.active + 1, woken := s.woken.erase c }
    else s

/-- Run a trace of semaphore events from the initial state. -/
def semRun (mx : Int) (evs : List SemEv) : SemState :=
  evs.foldl (semStep mx) semInit

/-- Restricted scheduling in which a release that wakes a waiter is
immediately followed by that waiter resuming: the composite is built
from the code's own steps. -/
def atomicRelease (mx : Int) (s : SemState) : SemState :=
  match s.queue with
  | [] => semStep mx s SemEv.release
  | c :: _ => semStep mx (semStep mx s SemEv.release) (SemEv.resume c)

/-- Events under the restricted scheduling. -/
inductive SemEvA where
  | acquire (c : Nat)
  | release

/-- One restricted-scheduling step. -/
def semStepA (mx : Int) (s : SemState) : SemEvA → SemState
  | SemEvA.acquire c => semStep mx s (SemEv.acquire c)
  | SemEvA.release => atomicRelease mx s

/-- Run a restricted trace from the initial state. -/
def semRunA (mx : Int) (evs : List SemEvA) : SemState :=
  evs.foldl (semStepA mx) semInit

/-! Concrete sample data used by counterexamples and witnesses. -/

/-- Tier-one pass condition of scrapeDuProprio: direct fetch usable and
its parsed record acceptable. -/
def dpTier1Pass (env : DPEnv) : Bool :=
  env.direct.ok && !looksBlocked env.direct.html && dpQuality (env.parseHtml env.direct.html)

/-- Tier-two pass condition of scrapeDuProprio: structured evaluation
succeeded and its parsed record is acceptable. -/
def dpTier2Pass (env : DPEnv) : Bool :=
  match env.structured with
  | some s => dpQuality (parseDuProprioFromStructured env.url s)
  | none => false

/-- A structured payload whose parse passes dpQuality through its price. -/
def dpSampleStructured : DPStructured :=
  { metaAmount := "", domPriceText := "$500,000", bedsText := "",
    bathsText := "", dimText := "", condoFeesText := "" }

/-- A listing as the rendered-tier parser would produce it, passing
dpQuality and different from the structured-tier record. -/
def dpRecRendered : Listing :=
  { url := "u", source := "DuProprio", address := "", price := "$600,000",
    beds := none, baths := none, levels := none, area := none,
    condoFees := "N/A", contact := "N/A" }

/-- A DuProprio environment where the direct fetch fails while both the
structured tier and the rendered tier would yield acceptable records. -/
def dpEnvCounter : DPEnv :=
  { url := "u", direct := { ok := false, html := "" },
    parseHtml := fun _ => dpRecRendered,
    structured := some dpSampleStructured,
    rendered := Except.ok "H" }

/-- A DuProprio environment whose direct tier passes. -/
def dpEnvDirect : DPEnv :=
  { url := "u", direct := { ok := true, html := "<html>all good</html>" },
    parseHtml := fun _ => dpRecRendered,
    structured := none,
    rendered := Except.error "unused" }

/-- A Centris environment whose direct tier passes. -/
def cEnvDirect : CEnv :=
  { direct := { ok := true, html := "<html>all good</html>" },
    parseHtml := fun _ => dpRecRendered,
    rendered := Except.error "unused" }

/-- A record in which every field the quality predicates inspect holds a
sentinel. -/
def sentinelListing : Listing :=
  { url := "u", source := "DuProprio", address := "", price := "N/A",
    beds := none, baths := none, levels := none, area := none,
    condoFees := "N/A", contact := "N/A" }

/-- Inductive invariant of the in-flight coordinator under non-refresh
traffic: at most one running extraction per key, and every running
extraction is registered in the in-flight map under its key. -/
def DedupInv (s : DedupState) : Prop :=
  (∀ k, runningCountKey s k ≤ 1) ∧
  (∀ p ∈ s.running, s.inflightM p.2 = some p.1)

/-- Invariant of the semaphore under the restricted scheduling: the
active count stays within the bound and no woken waiter is pending. -/
def SemBoundInv (mx : Int) (s : SemState) : Prop :=
  0 ≤ s.active ∧ s.active ≤ mx ∧ s.woken = []

/-- Adjacency relation of whitespace-normal form: no two consecutive
whitespace characters. -/
abbrev wsR (x y : Char) : Prop :=
  jsWsChar x = false ∨ jsWsChar y = false

/-! Claim theorems, with their counterexamples and witnesses. -/

theorem chain_wsR_dropWhile (p : Char → Bool) :
    ∀ l : List Char, List.Chain' wsR l → List.Chain' wsR (l.dropWhile p) := by
  intro l h
  induction l with
  | nil => simp
  | cons c rest ih =>
    rw [List.dropWhile_cons]
    by_cases hp : p c
    · rw [if_pos hp]
      exact ih h.tail
    · rw [if_neg hp]
      exact h

theorem mem_dropWhile_sub (p : Char → Bool) :
    ∀ (l : List Char) (c : Char), c ∈ l.dropWhile p → c ∈ l := by
  intro l c h
  exact (List.dropWhile_suffix p).subset h

theorem head_dropWhile_false (p : Char → Bool) :
    ∀ (l : List Char) (c : Char), (l.dropWhile p).head? = some c → p c = false := by
  intro l c h
  induction l with
  | nil => simp [List.dropWhile] at h
  | cons a rest ih =>
    rw [List.dropWhile_cons] at h
    by_cases hp : p a
    · rw [if_pos hp] at h
      exact ih h
    · rw [if_neg hp] at h
      simp only [List.head?_cons, Option.some.injEq] at h
      subst h
      exact Bool.eq_false_iff.mpr hp

theorem collapseWs_cons_notWs {c : Char} (l : List Char) (h : jsWsChar c = false) :
    collapseWs (c :: l) = c :: collapseWs l := by
  cases l <;> simp [collapseWs, h]

theorem collapseWs_singleton_ws {c : Char} (h : jsWsChar c = true) :
    collapseWs [c] = [' '] := by
  simp [collapseWs, h]

theorem collapseWs_cons_ws_ws {c d : Char} (l : List Char)
    (hc : jsWsChar c = true) (hd : jsWsChar d = true) :
    collapseWs (c :: d :: l) = collapseWs (d :: l) := by
  simp [collapseWs, hc, hd]

theorem collapseWs_cons_ws_notWs {c d : Char} (l : List Char)
    (hc : jsWsChar c = true) (hd : jsWsChar d = false) :
    collapseWs (c :: d :: l) = ' ' :: collapseWs (d :: l) := by
  simp [collapseWs, hc, hd]

theorem chain_collapseWs : ∀ l : List Char, List.Chain' wsR (collapseWs l) := by
  intro l
  induction l with
  | nil => simp [collapseWs]
  | cons c rest ih =>
    cases hc : jsWsChar c with
    | false =>
      rw [collapseWs_cons_notWs rest hc]
      rw [List.chain'_cons']
      exact ⟨fun b _ => Or.inl hc, ih⟩
    | true =>
      cases rest with
      | nil =>
        rw [collapseWs_singleton_ws hc]
        simp
      | cons d rest2 =>
        cases hd : jsWsChar d with
        | true =>
          rw [collapseWs_cons_ws_ws rest2 hc hd]
          exact ih
        | false =>
          rw [collapseWs_cons_ws_notWs rest2 hc hd]
          rw [List.chain'_cons']
          refine ⟨?_, ih⟩
          intro b hb
          rw [collapseWs_cons_notWs rest2 hd] at hb
          simp only [List.head?_cons, Option.mem_def, Option.some.injEq] at hb
          subst hb
          exact Or.inr hd

theorem wsBlank_collapseWs :
    ∀ l : List Char, ∀ c ∈ collapseWs l, jsWsChar c = true → c = ' ' := by
  intro l
  induction l with
  | nil => simp [collapseWs]
  | cons c rest ih =>
    cases hc : jsWsChar c with
    | false =>
      rw [collapseWs_cons_notWs rest hc]
      intro c2 hc2 hws
      rw [List.mem_cons] at hc2
      rcases hc2 with hc2 | hc2
      · subst hc2
        rw [hc] at hws
        exact Bool.noConfusion hws
      · exact ih c2 hc2 hws
    | true =>
      cases rest with
      | nil =>
        rw [collapseWs_singleton_ws hc]
        intro c2 hc2 _
        simpa using hc2
      | cons d rest2 =>
        cases hd : jsWsChar d with
        | true =>
          rw [collapseWs_cons_ws_ws rest2 hc hd]
          exact ih
        | false =>
          rw [collapseWs_cons_ws_notWs rest2 hc hd]
          intro c2 hc2 hws
          rw [List.mem_cons] at hc2
          rcases hc2 with hc2 | hc2
          · exact hc2
          · exact ih c2 hc2 hws

theorem collapseWs_eq_self :
    ∀ l : List Char, List.Chain' wsR l → (∀ c ∈ l, jsWsChar c = true → c = ' ') →
      collapseWs l = l := by
  intro l hch hbl
  induction l with
  | nil => rfl
  | cons c rest ih =>
    cases hc : jsWsChar c with
    | false =>
      rw [collapseWs_cons_notWs rest hc, ih hch.tail
        (fun c2 h2 => hbl c2 (List.mem_cons_of_mem _ h2))]
    | true =>
      have hcblank : c = ' ' := hbl c (List.mem_cons_self _ _) hc
      cases rest with
      | nil =>
        rw [collapseWs_singleton_ws hc, hcblank]
      | cons d rest2 =>
        have hrel : wsR c d := (List.chain'_cons.mp hch).1
        have hd : jsWsChar d = false := by
          rcases hrel with h | h
          · rw [hc] at h
            exact Bool.noConfusion h
          · exact h
        rw [collapseWs_cons_ws_notWs rest2 hc hd, hcblank,
          ih hch.tail (fun c2 h2 => hbl c2 (List.mem_cons_of_mem _ h2))]

theorem chain_trimEndWs (l : List Char) (h : List.Chain' wsR l) :
    List.Chain' wsR (trimEndWs l) := by
  unfold trimEndWs
  rw [List.chain'_reverse]
  have h1 : List.Chain' wsR l.reverse := by
    rw [List.chain'_reverse]
    exact List.Chain'.imp (fun a b (hab : wsR a b) => Or.symm hab) h
  exact List.Chain'.imp (fun a b (hab : wsR a b) => Or.symm hab)
    (chain_wsR_dropWhile jsWsChar l.reverse h1)

theorem mem_trimEndWs (l : List Char) (c : Char) (h : c ∈ trimEndWs l) : c ∈ l := by
  unfold trimEndWs at h
  rw [List.mem_reverse] at h
  have := mem_dropWhile_sub jsWsChar l.reverse c h
  rwa [List.mem_reverse] at this

theorem getLast_trimEndWs_false (l : List Char) (c : Char)
    (h : (trimEndWs l).getLast? = some c) : jsWsChar c = false := by
  unfold trimEndWs at h
  rw [List.getLast?_reverse] at h
  exact head_dropWhile_false jsWsChar l.reverse c h

theorem head_trimEndWs (l : List Char) (c : Char)
    (h : (trimEndWs l).head? = some c) : l.head? = some c := by
  have hpre : List.IsPrefix (trimEndWs l) l := by
    unfold trimEndWs
    have hsuf : List.IsSuffix (l.reverse.dropWhile jsWsChar) l.reverse :=
      List.dropWhile_suffix jsWsChar
    have hpr := List.reverse_prefix.mpr hsuf
    rwa [List.reverse_reverse] at hpr
  obtain ⟨t, ht⟩ := hpre
  cases he : trimEndWs l with
  | nil => rw [he] at h; exact Option.noConfusion h
  | cons a rest =>
    rw [he] at h ht
    simp only [List.head?_cons, Option.some.injEq] at h
    subst h
    rw [← ht]
    rfl

theorem cleanTextL_chain (l : List Char) : List.Chain' wsR (cleanTextL l) := by
  unfold cleanTextL trimWsL
  exact chain_trimEndWs _ (chain_wsR_dropWhile _ _ (chain_collapseWs l))

theorem cleanTextL_wsBlank (l : List Char) :
    ∀ c ∈ cleanTextL l, jsWsChar c = true → c = ' ' := by
  intro c hc hws
  unfold cleanTextL trimWsL at hc
  have h2 := mem_trimEndWs _ _ hc
  have h3 := mem_dropWhile_sub jsWsChar _ _ h2
  exact wsBlank_collapseWs l c h3 hws

theorem cleanTextL_head (l : List Char) (c : Char)
    (h : (cleanTextL l).head? = some c) : jsWsChar c = false := by
  unfold cleanTextL trimWsL at h
  have h2 := head_trimEndWs _ _ h
  exact head_dropWhile_false jsWsChar _ _ h2

theorem cleanTextL_getLast (l : List Char) (c : Char)
    (h : (cleanTextL l).getLast? = some c) : jsWsChar c = false := by
  unfold cleanTextL trimWsL at h
  exact getLast_trimEndWs_false _ _ h

theorem cleanTextL_eq_self (l : List Char)
    (hch : List.Chain' wsR l)
    (hbl : ∀ c ∈ l, jsWsChar c = true → c = ' ')
    (hhd : ∀ c, l.head? = some c → jsWsChar c = false)
    (hlast : ∀ c, l.getLast? = some c → jsWsChar c = false) :
    cleanTextL l = l := by
  unfold cleanTextL trimWsL
  rw [collapseWs_eq_self l hch hbl]
  have hdw : l.dropWhile jsWsChar = l := by
    cases hl : l with
    | nil => rfl
    | cons a rest =>
      rw [List.dropWhile_cons]
      rw [if_neg]
      intro hws
      have := hhd a (by rw [hl]; rfl)
      rw [this] at hws
      exact Bool.noConfusion hws
  rw [hdw]
  unfold trimEndWs
  have hdw2 : l.reverse.dropWhile jsWsChar = l.reverse := by
    cases hr : l.reverse with
    | nil => rfl
    | cons a rest =>
      rw [List.dropWhile_cons]
      rw [if_neg]
      intro hws
      have hga : l.getLast? = some a := by
        rw [← List.head?_reverse, hr]
        rfl
      have := hlast a hga
      rw [this] at hws
      exact Bool.noConfusion hws
  rw [hdw2, List.reverse_reverse]

theorem cleanTextL_idem (l : List Char) : cleanTextL (cleanTextL l) = cleanTextL l :=
  cleanTextL_eq_self _ (cleanTextL_chain l) (cleanTextL_wsBlank l)
    (cleanTextL_head l) (cleanTextL_getLast l)

theorem cleanText_idem (s : String) : cleanText (cleanText s) = cleanText s := by
  unfold cleanText
  exact congrArg String.mk (cleanTextL_idem s.data)

theorem digitChar_not_ws (m : Nat) (h : m < 10) : jsWsChar (digitChar m) = false := by
  interval_cases m <;> decide

theorem natDigitsAux_not_ws :
    ∀ (fuel n : Nat) (c : Char), c ∈ natDigitsAux fuel n → jsWsChar c = false := by
  intro fuel
  induction fuel with
  | zero =>
    intro n c h
    simp [natDigitsAux] at h
  | succ f ih =>
    intro n c h
    unfold natDigitsAux at h
    by_cases hn : n = 0
    · rw [if_pos hn] at h
      simp at h
    · rw [if_neg hn] at h
      rw [List.mem_cons] at h
      rcases h with h | h
      · subst h
        exact digitChar_not_ws _ (Nat.mod_lt _ (by norm_num))
      · exact ih _ c h

theorem natDigitsR_not_ws (n : Nat) (c : Char) (h : c ∈ natDigitsR n) :
    jsWsChar c = false := by
  unfold natDigitsR at h
  by_cases hn : n = 0
  · rw [if_pos hn] at h
    simp at h
    subst h
    decide
  · rw [if_neg hn] at h
    exact natDigitsAux_not_ws n n c h

theorem groupRev_mem : ∀ (l : List Char) (x : Char), x ∈ groupRev l → x ∈ l ∨ x = ','
  | [], x, hx => Or.inl (by simp [groupRev] at hx)
  | [a], x, hx => Or.inl (by simpa [groupRev] using hx)
  | [a, b], x, hx => Or.inl (by simpa [groupRev] using hx)
  | [a, b, c0], x, hx => Or.inl (by simpa [groupRev] using hx)
  | a :: b :: c0 :: d :: rest, x, hx => by
    simp only [groupRev, List.mem_cons] at hx
    rcases hx with h | h | h | h | h
    · exact Or.inl (by simp [h])
    · exact Or.inl (by simp [h])
    · exact Or.inl (by simp [h])
    · exact Or.inr h
    · rcases groupRev_mem (d :: rest) x h with h2 | h2
      · exact Or.inl (by simp only [List.mem_cons] at h2 ⊢; tauto)
      · exact Or.inr h2

theorem formatMoney_not_ws (q : ℚ) (c : Char) (h : c ∈ (formatMoney q).data) :
    jsWsChar c = false := by
  unfold formatMoney at h
  rw [show (String.mk ('$' :: (groupRev (natDigitsR (jsRound q).toNat)).reverse)).data =
    '$' :: (groupRev (natDigitsR (jsRound q).toNat)).reverse from rfl] at h
  rw [List.mem_cons] at h
  rcases h with h | h
  · subst h
    decide
  · rw [List.mem_reverse] at h
    rcases groupRev_mem _ c h with h2 | h2
    · exact natDigitsR_not_ws _ c h2
    · subst h2
      decide

theorem slashThenWordTest_append (w l1 l2 : List Char)
    (h : slashThenWordTest w l2 = true) :
    slashThenWordTest w (l1 ++ l2) = true := by
  induction l1 with
  | nil => exact h
  | cons c rest ih =>
    rw [List.cons_append]
    unfold slashThenWordTest
    rw [ih]
    simp

theorem monthTest_fm_suffix (q : ℚ) :
    monthTest ((formatMoney q ++ " / month").data) = true := by
  unfold monthTest
  rw [String.data_append]
  rw [slashThenWordTest_append "month".data (formatMoney q).data (" / month").data
    (by decide)]
  simp

theorem notWs_chain (l : List Char) (h : ∀ c ∈ l, jsWsChar c = false) :
    List.Chain' wsR l := by
  induction l with
  | nil => simp
  | cons c rest ih =>
    rw [List.chain'_cons']
    refine ⟨fun b _ => Or.inl (h c (List.mem_cons_self _ _)), ?_⟩
    exact ih (fun c2 h2 => h c2 (List.mem_cons_of_mem _ h2))

theorem out_month_clean (q : ℚ) :
    cleanText (formatMoney q ++ " / month") = formatMoney q ++ " / month" := by
  have hdata : (formatMoney q ++ " / month").data =
      (formatMoney q).data ++ (" / month").data := String.data_append _ _
  have hfm : ∀ c ∈ (formatMoney q).data, jsWsChar c = false := formatMoney_not_ws q
  have hfmd : (formatMoney q).data =
      '$' :: (groupRev (natDigitsR (jsRound q).toNat)).reverse := rfl
  unfold cleanText
  rw [show (formatMoney q ++ " / month").data =
    (formatMoney q).data ++ (" / month").data from hdata]
  have heq : cleanTextL ((formatMoney q).data ++ (" / month").data) =
      (formatMoney q).data ++ (" / month").data := by
    apply cleanTextL_eq_self
    · rw [List.chain'_append]
      refine ⟨notWs_chain _ hfm, ?_, ?_⟩
      · rw [show (" / month").data = [' ', '/', ' ', 'm', 'o', 'n', 't', 'h'] from rfl]
        simp [List.chain'_cons, wsR, jsWsChar]
      · intro x hx y hy
        exact Or.inl (hfm x (List.mem_of_mem_getLast? hx))
    · intro c hc hws
      rw [List.mem_append] at hc
      rcases hc with hc | hc
      · rw [hfm c hc] at hws
        exact Bool.noConfusion hws
      · have hc8 : c ∈ [' ', '/', ' ', 'm', 'o', 'n', 't', 'h'] := hc
        fin_cases hc8 <;> revert hws <;> decide
    · intro c hc
      rw [hfmd] at hc
      rw [List.cons_append, List.head?_cons] at hc
      have : c = '$' := by
        rw [Option.some.injEq] at hc
        exact hc.symm
      subst this
      decide
    · intro c hc
      rw [List.getLast?_append] at hc
      rw [show (" / month").data.getLast? = some 'h' from rfl] at hc
      rw [show (some 'h').or (formatMoney q).data.getLast? = some 'h' from rfl] at hc
      have : c = 'h' := by
        rw [Option.some.injEq] at hc
        exact hc.symm
      subst this
      decide
  rw [heq]
  have : String.mk ((formatMoney q).data ++ (" / month").data) =
      String.mk (formatMoney q ++ " / month").data := by rw [hdata]
  rw [this]

theorem out_month_ne (q : ℚ) :
    ¬(formatMoney q ++ " / month" = "" ∨ formatMoney q ++ " / month" = "N/A") := by
  intro h
  have hfmd : (formatMoney q ++ " / month").data =
      '$' :: ((groupRev (natDigitsR (jsRound q).toNat)).reverse ++ (" / month").data) := by
    rw [String.data_append]
    rfl
  rcases h with h | h
  · have := congrArg String.data h
    rw [hfmd] at this
    exact List.noConfusion this
  · have := congrArg String.data h
    rw [hfmd] at this
    have hhd := congrArg List.head? this
    simp at hhd

theorem ensure_eval (s : String) :
    ensureMonthlyFeesString s =
      (if cleanText s = "" ∨ cleanText s = "N/A" then "N/A"
       else if monthTest (cleanText s).data then cleanText s
       else if yearTest (cleanText s).data then
         match moneyToNumber (cleanText s) with
         | some n => formatMoney ((jsRound (n / 12) : ℤ) : ℚ) ++ " / month"
         | none => cleanText s
       else
         match moneyToNumber (cleanText s) with
         | some n =>
           if 1200 ≤ n then formatMoney ((jsRound (n / 12) : ℤ) : ℚ) ++ " / month"
           else cleanText s
         | none => cleanText s) := rfl

theorem ensure_month_output_fixed (q : ℚ) :
    ensureMonthlyFeesString (formatMoney q ++ " / month") =
      formatMoney q ++ " / month" := by
  rw [ensure_eval, out_month_clean q, if_neg (out_month_ne q),
    if_pos (monthTest_fm_suffix q)]

theorem findOpKey_mem {l : List (Nat × String)} {o : Nat} {k : String}
    (h : findOpKey l o = some k) : (o, k) ∈ l := by
  induction l with
  | nil => simp [findOpKey] at h
  | cons p rest ih =>
    unfold findOpKey at h
    by_cases hp : p.1 = o
    · rw [if_pos hp] at h
      have hk : p.2 = k := Option.some.inj h
      rw [List.mem_cons]
      left
      cases p
      simp_all
    · rw [if_neg hp] at h
      exact List.mem_cons_of_mem _ (ih h)

theorem dedup_arrive_preserves (hc : String → Bool) (s : DedupState)
    (k : String) (hs : DedupInv s) :
    DedupInv (dedupStep hc s (DedupEv.arrive k false)) := by
  obtain ⟨h1, h2⟩ := hs
  show DedupInv (arriveStep hc s k false).1
  cases hck : hc k with
  | true =>
    have heq : arriveStep hc s k false = (s, ReqAction.cachedHit) := by
      unfold arriveStep
      simp [hck]
    rw [heq]
    exact ⟨h1, h2⟩
  | false =>
    cases hin : s.inflightM k with
    | some o =>
      have heq : arriveStep hc s k false = (s, ReqAction.awaited o) := by
        unfold arriveStep
        simp [hck, hin]
      rw [heq]
      exact ⟨h1, h2⟩
    | none =>
      have heq : (arriveStep hc s k false).1 =
          { inflightM := fun k2 => if k2 = k then some s.nextOp else s.inflightM k2,
            running := (s.nextOp, k) :: s.running, nextOp := s.nextOp + 1 } := by
        unfold arriveStep
        simp [hck, hin]
      rw [heq]
      have hnok : ∀ p ∈ s.running, p.2 ≠ k := by
        intro p hp hpk
        have hcontra := h2 p hp
        rw [hpk, hin] at hcontra
        exact Option.noConfusion hcontra
      constructor
      · intro k2
        unfold runningCountKey
        simp only [List.filter_cons]
        by_cases hk2 : k = k2
        · subst hk2
          simp only [decide_eq_true_eq, if_pos rfl]
          have hnil : s.running.filter (fun p => p.2 = k) = [] := by
            rw [List.filter_eq_nil_iff]
            intro p hp
            simp only [decide_eq_true_eq]
            exact hnok p hp
          simp [hnil]
        · simp only [decide_eq_true_eq, if_neg hk2]
          exact h1 k2
      · intro p hp
        rw [List.mem_cons] at hp
        rcases hp with hp | hp
        · subst hp
          simp
        · have hne := hnok p hp
          simp only []
          rw [if_neg hne]
          exact h2 p hp

theorem dedup_complete_preserves (s : DedupState) (o : Nat) (ok : Bool)
    (hs : DedupInv s) : DedupInv (completeStep s o ok) := by
  obtain ⟨h1, h2⟩ := hs
  unfold completeStep
  cases hf : findOpKey s.running o with
  | none => exact ⟨h1, h2⟩
  | some key =>
    dsimp only
    have hmem : (o, key) ∈ s.running := findOpKey_mem hf
    constructor
    · intro k
      unfold runningCountKey
      dsimp only
      have hsub : List.Sublist
          ((s.running.filter (fun p => p.1 ≠ o)).filter (fun p => p.2 = k))
          (s.running.filter (fun p => p.2 = k)) :=
        List.Sublist.filter _ (List.filter_sublist s.running)
      exact le_trans (List.Sublist.length_le hsub) (h1 k)
    · intro p hp
      dsimp only at hp
      rw [List.mem_filter] at hp
      obtain ⟨hpmem, hpne⟩ := hp
      simp only [decide_eq_true_eq] at hpne
      dsimp only
      have hpk : p.2 ≠ key := by
        intro hpk
        have ha := h2 p hpmem
        have hb := h2 (o, key) hmem
        rw [hpk] at ha
        rw [ha] at hb
        exact hpne (Option.some.inj hb)
      rw [if_neg hpk]
      exact h2 p hpmem

theorem dedup_trace_inv (hc : String → Bool) (evs : List DedupEv) (s : DedupState)
    (hs : DedupInv s) (hnr : ∀ k r, DedupEv.arrive k r ∈ evs → r = false) :
    DedupInv (evs.foldl (dedupStep hc) s) := by
  induction evs generalizing s with
  | nil => exact hs
  | cons ev rest ih =>
    simp only [List.foldl_cons]
    apply ih
    · cases ev with
      | arrive k r =>
        have hr : r = false := hnr k r (List.mem_cons_self _ _)
        subst hr
        exact dedup_arrive_preserves hc s k hs
      | complete o ok => exact dedup_complete_preserves s o ok hs
    · intro k r hmem
      exact hnr k r (List.mem_cons_of_mem _ hmem)

/-- C2 counterexample: a second request for the same key carrying
refresh bypasses the in-flight map, so two extractions for one key run
concurrently. -/
theorem inflight_refresh_counterexample :
    runningCountKey (dedupRun (fun _ => false)
      [DedupEv.arrive "k" false, DedupEv.arrive "k" true]) "k" = 2 := rfl

/-- C2 amended: among requests that do not carry refresh, a second
request for a key with an extraction in flight (and no cache hit) awaits
that same operation and starts nothing, every trace of such requests
keeps at most one running extraction per key, and completion of an
operation (with either outcome) removes the in-flight entry of its key;
a request carrying refresh bypasses the in-flight check and starts a
second concurrent extraction. -/
theorem inflight_dedup_amended :
    (∀ (hc : String → Bool) (s : DedupState) (k : String) (o : Nat),
      hc k = false → s.inflightM k = some o →
      arriveStep hc s k false = (s, ReqAction.awaited o)) ∧
    (∀ (hc : String → Bool) (evs : List DedupEv),
      (∀ k r, DedupEv.arrive k r ∈ evs → r = false) →
      ∀ k, runningCountKey (dedupRun hc evs) k ≤ 1) ∧
    (∀ (s : DedupState) (o : Nat) (k : String) (ok : Bool),
      findOpKey s.running o = some k →
      (completeStep s o ok).inflightM k = none) := by
  refine ⟨?_, ?_, ?_⟩
  · intro hc s k o hck hin
    unfold arriveStep
    simp [hck, hin]
  · intro hc evs hnr k
    have hinit : DedupInv dedupInit := by
      constructor
      · intro k2
        unfold runningCountKey dedupInit
        simp
      · intro p hp
        unfold dedupInit at hp
        simp at hp
    exact (dedup_trace_inv hc evs dedupInit hinit hnr).1 k
  · intro s o k ok hf
    unfold completeStep
    rw [hf]
    simp

/-- C2 witness: the amended bound at a concrete two-request trace. -/
theorem inflight_dedup_amended_witness :
    runningCountKey (dedupRun (fun _ => false)
      [DedupEv.arrive "k" false, DedupEv.arrive "k" false]) "k" ≤ 1 := by
  apply inflight_dedup_amended.2.1
  intro k r hmem
  simp only [List.mem_cons, List.not_mem_nil, or_false] at hmem
  rcases hmem with h | h
  · injection h with h1 h2
  · injection h with h1 h2

/-- C5: moneyToNumber evaluated at the failing inputs of the claim: for
the empty string and for the digit-free placeholders the code returns 0
(JavaScript Number of an empty string is 0), not null as the claim and
the spec require. -/
theorem moneyToNumber_placeholder_is_zero :
    moneyToNumber "" = some 0 ∧ moneyToNumber "N/A" = some 0 ∧
    moneyToNumber "—" = some 0 :=
  ⟨rfl, rfl, rfl⟩

/-- C6 counterexample: an input containing a digits-ft-squared match is
rewritten to the bare captured group, not returned unchanged as the
claim states. -/
theorem normalizeArea_not_unchanged :
    normalizeAreaToFt2 "977 ft² (90.77 m²)" = some "977 ft²" ∧
    ("977 ft²" : String) ≠ "977 ft² (90.77 m²)" := by
  refine ⟨by decide, by decide⟩

/-- C6 amended: normalizeAreaToFt2 maps the digits-sqft form to the
canonical ft-squared form, rewrites a digits-ft-squared match to the bare
captured group followed by the unit (dropping surrounding text such as a
parenthetical square-metre conversion), returns null for empty input,
and passes every other non-empty input through cleaned. -/
theorem normalizeArea_amended :
    normalizeAreaToFt2 "912 sqft" = some "912 ft²" ∧
    normalizeAreaToFt2 "" = none ∧
    (∀ s : String, ∀ cap : List Char, cleanText s ≠ "" →
      findNumGroupThen "sqft".data (cleanText s).data = some cap →
      normalizeAreaToFt2 s = some (String.mk cap ++ " ft²")) ∧
    (∀ s : String, cleanText s ≠ "" →
      findNumGroupThen "sqft".data (cleanText s).data = none →
      findNumGroupThen "ft²".data (cleanText s).data = none →
      normalizeAreaToFt2 s = some (cleanText s)) := by
  refine ⟨by decide, by decide, ?_, ?_⟩
  · intro s cap hne hcap
    unfold normalizeAreaToFt2
    simp only [hne, if_false, hcap]
  · intro s hne h1 h2
    unfold normalizeAreaToFt2
    simp only [hne, if_false, h1, h2]
    split <;> rfl

/-- C6 witness: the amended pass-through clause at a concrete input. -/
theorem normalizeArea_amended_witness :
    normalizeAreaToFt2 "90.77 m²" = some (cleanText "90.77 m²") :=
  normalizeArea_amended.2.2.2 "90.77 m²" (by decide) (by decide) (by decide)

/-- C8: looksLikeRealAddress rejects the empty string and the two
marketing sentences, accepts the two street addresses, and
sanitizeAddressOrBlank returns the cleaned text exactly when
looksLikeRealAddress accepts it and the empty string otherwise. -/
theorem looksLikeRealAddress_examples :
    looksLikeRealAddress "" = false ∧
    looksLikeRealAddress
      ("Amazing opportunity! Don" ++ String.singleton (Char.ofNat 39) ++ "t miss out.") = false ∧
    looksLikeRealAddress
      "This stunning property invites you to discover luxury living." = false ∧
    looksLikeRealAddress "1234 Rue Sainte-Catherine, Montréal, QC H3B 1A17" = true ∧
    looksLikeRealAddress "500 Main Street" = true ∧
    (∀ s : String,
      (looksLikeRealAddress (cleanText s) = true ∧ sanitizeAddressOrBlank s = cleanText s) ∨
      (looksLikeRealAddress (cleanText s) = false ∧ sanitizeAddressOrBlank s = "")) := by
  refine ⟨by decide, by decide, by decide, by decide, by decide, ?_⟩
  intro s
  unfold sanitizeAddressOrBlank
  cases h : looksLikeRealAddress (cleanText s)
  · right
    exact ⟨rfl, by simp [h]⟩
  · left
    exact ⟨rfl, by simp [h]⟩

/-- C4: a cached entry older than the TTL is never returned: getCached
returns null on an expired key and deletes the entry, and returns the
stored record within the TTL; getCachedWithState of part_001 behaves the
same with its maximal (stale) TTL as the bound. -/
theorem getCached_ttl_behavior :
    ∀ (now : Nat) (cache : CacheMap) (key : String) (hit : CacheEntry),
      cache key = some hit →
      ((CACHE_TTL_MS < now - hit.ts →
          (getCached now cache key).1 = none ∧ (getCached now cache key).2 key = none) ∧
       (now - hit.ts ≤ CACHE_TTL_MS →
          (getCached now cache key).1 = some hit.data ∧ (getCached now cache key).2 = cache) ∧
       (STALE_TTL_MS < now - hit.ts →
          (getCachedWithState now cache key).1 = none ∧
          (getCachedWithState now cache key).2.2 key = none) ∧
       (now - hit.ts ≤ STALE_TTL_MS →
          (getCachedWithState now cache key).1 = some hit.data)) := by
  intro now cache key hit h
  unfold getCached getCachedWithState
  rw [h]
  dsimp only
  refine ⟨?_, ?_, ?_, ?_⟩
  · intro hexp
    rw [if_pos hexp]
    exact ⟨rfl, by simp⟩
  · intro hin
    rw [if_neg (by omega)]
    exact ⟨rfl, rfl⟩
  · intro hexp
    rw [if_neg (by unfold FRESH_TTL_MS STALE_TTL_MS at *; omega),
        if_neg (by omega)]
    exact ⟨rfl, by simp⟩
  · intro hin
    by_cases hf : now - hit.ts ≤ FRESH_TTL_MS
    · rw [if_pos hf]
    · rw [if_neg hf, if_pos hin]

/-- C4 witness: a concrete expired entry is not returned and is absent
afterwards, and a concrete in-TTL entry is returned. -/
theorem getCached_ttl_behavior_witness :
    ((getCached (CACHE_TTL_MS + 1) (setCached 0 "k" sentinelListing emptyCache) "k").1 = none ∧
     (getCached (CACHE_TTL_MS + 1) (setCached 0 "k" sentinelListing emptyCache) "k").2 "k" = none) ∧
    (getCached 10 (setCached 0 "k" sentinelListing emptyCache) "k").1 = some sentinelListing := by
  constructor
  · exact (getCached_ttl_behavior (CACHE_TTL_MS + 1)
      (setCached 0 "k" sentinelListing emptyCache) "k"
      { ts := 0, data := sentinelListing } (by rfl)).1 (by decide)
  · exact ((getCached_ttl_behavior 10
      (setCached 0 "k" sentinelListing emptyCache) "k"
      { ts := 0, data := sentinelListing } (by rfl)).2.1 (by decide)).1

/-- C3 counterexample: the part_000 pipeline persists a record that fails
the quality predicate of the claim (every inspected field a sentinel). -/
theorem v0_caches_failing_record :
    (cacheAfterScrapeV0 5 emptyCache "k" "" sentinelListing) "k" =
      some { ts := 5, data := finalizeListing "" "—" sentinelListing } ∧
    claimLooksGood (finalizeListing "" "—" sentinelListing) = false := by
  refine ⟨rfl, by decide⟩

/-- C3 amended: the server.js and part_002 pipelines write the cache only
when their looksGood predicate accepts the finalized record (the cache is
untouched otherwise), while the part_000 and part_001 pipelines cache
every completed scrape unconditionally. -/
theorem cache_write_guards :
    ∀ (now : Nat) (cache : CacheMap) (key hint : String) (listing : Listing),
      (looksGoodMain (finalizeListing hint "N/A" listing) = false →
        cacheAfterScrapeMain now cache key hint listing = cache) ∧
      (looksGoodMain (finalizeListing hint "N/A" listing) = true →
        cacheAfterScrapeMain now cache key hint listing =
          setCached now key (finalizeListing hint "N/A" listing) cache) ∧
      (looksGoodV2 (finalizeListing hint "N/A" listing) = false →
        cacheAfterScrapeV2 now cache key hint listing = cache) ∧
      (cacheAfterScrapeV0 now cache key hint listing) key =
        some { ts := now, data := finalizeListing hint "—" listing } := by
  intro now cache key hint listing
  refine ⟨?_, ?_, ?_, ?_⟩
  · intro h
    simp [cacheAfterScrapeMain, h]
  · intro h
    simp [cacheAfterScrapeMain, h]
  · intro h
    simp [cacheAfterScrapeV2, h]
  · simp [cacheAfterScrapeV0, setCached]

/-- C3 witness: the main pipeline leaves the cache unchanged on a record
failing its predicate. -/
theorem cache_write_guards_witness :
    cacheAfterScrapeMain 0 emptyCache "k" "" sentinelListing = emptyCache :=
  (cache_write_guards 0 emptyCache "k" "" sentinelListing).1 (by decide)

/-- C1 counterexample: with the direct fetch failing and both remaining
tiers able to produce acceptable records, scrapeDuProprio returns the
structured-tier record while the tier order of the claim (direct, then
rendered, then structured) would return the rendered-tier record. -/
theorem scrapeDuProprio_order_differs :
    scrapeDuProprio dpEnvCounter =
      Except.ok (parseDuProprioFromStructured "u" dpSampleStructured) ∧
    claimTierOrderDuProprio dpEnvCounter = Except.ok dpRecRendered ∧
    (Except.ok (parseDuProprioFromStructured "u" dpSampleStructured) :
      Except String Listing) ≠ Except.ok dpRecRendered := by
  refine ⟨rfl, by decide, by decide⟩

/-- C1 amended: scrapeCentris tries direct fetch then rendered fetch,
advancing only on fetch failure or a blocked body (without checking the
parsed record) and returning the rendered record unconditionally;
scrapeDuProprio tries direct fetch, then structured evaluation, then
rendered fetch, where the first two tiers advance on fetch failure or a
record failing dpQuality and the rendered record is returned
unconditionally. -/
theorem orchestrator_tier_order :
    ∀ (ec : CEnv) (ed : DPEnv),
      ((ec.direct.ok && !looksBlocked ec.direct.html) = true →
        scrapeCentris ec = Except.ok (ec.parseHtml ec.direct.html)) ∧
      ((ec.direct.ok && !looksBlocked ec.direct.html) = false →
        scrapeCentris ec = ec.rendered.map ec.parseHtml) ∧
      (dpTier1Pass ed = true →
        scrapeDuProprio ed = Except.ok (ed.parseHtml ed.direct.html)) ∧
      (∀ s, dpTier1Pass ed = false → ed.structured = some s →
        dpQuality (parseDuProprioFromStructured ed.url s) = true →
        scrapeDuProprio ed = Except.ok (parseDuProprioFromStructured ed.url s)) ∧
      (dpTier1Pass ed = false → dpTier2Pass ed = false →
        scrapeDuProprio ed = ed.rendered.map ed.parseHtml) := by
  intro ec ed
  refine ⟨?_, ?_, ?_, ?_, ?_⟩
  · intro h
    simp [scrapeCentris, h]
  · intro h
    simp [scrapeCentris, h]
  · intro h
    unfold dpTier1Pass at h
    rw [Bool.and_eq_true] at h
    simp [scrapeDuProprio, h.1, h.2]
  · intro s h1 hs hq
    unfold dpTier1Pass at h1
    cases hA : (ed.direct.ok && !looksBlocked ed.direct.html) with
    | false => simp [scrapeDuProprio, hA, hs, hq]
    | true =>
      rw [hA, Bool.true_and] at h1
      simp [scrapeDuProprio, hA, h1, hs, hq]
  · intro h1 h2
    unfold dpTier1Pass at h1
    unfold dpTier2Pass at h2
    cases hA : (ed.direct.ok && !looksBlocked ed.direct.html) with
    | false =>
      cases hs : ed.structured with
      | none => simp [scrapeDuProprio, hA, hs]
      | some s =>
        rw [hs] at h2
        dsimp only at h2
        simp [scrapeDuProprio, hA, hs, h2]
    | true =>
      rw [hA, Bool.true_and] at h1
      cases hs : ed.structured with
      | none => simp [scrapeDuProprio, hA, h1, hs]
      | some s =>
        rw [hs] at h2
        dsimp only at h2
        simp [scrapeDuProprio, hA, h1, hs, h2]

/-- C1 witness: the amended characterization at concrete environments
whose direct tiers pass. -/
theorem orchestrator_tier_order_witness :
    scrapeCentris cEnvDirect = Except.ok dpRecRendered ∧
    scrapeDuProprio dpEnvDirect = Except.ok dpRecRendered := by
  constructor
  · exact (orchestrator_tier_order cEnvDirect dpEnvDirect).1 (by decide)
  · exact (orchestrator_tier_order cEnvDirect dpEnvDirect).2.2.1 (by decide)

theorem semStep_nonneg (mx : Int) (s : SemState) (e : SemEv)
    (h : 0 ≤ s.active) : 0 ≤ (semStep mx s e).active := by
  cases e with
  | acquire c =>
    simp only [semStep]
    by_cases hlt : s.active < mx
    · rw [if_pos hlt]
      dsimp only
      omega
    · rw [if_neg hlt]
      exact h
  | release =>
    simp only [semStep]
    cases s.queue with
    | nil =>
      dsimp only
      exact le_max_left 0 _
    | cons c rest =>
      dsimp only
      exact le_max_left 0 _
  | resume c =>
    simp only [semStep]
    by_cases hc : s.woken.contains c
    · rw [if_pos hc]
      dsimp only
      omega
    · rw [if_neg hc]
      exact h

theorem semRun_nonneg_aux (mx : Int) (evs : List SemEv) (s : SemState)
    (h : 0 ≤ s.active) : 0 ≤ (evs.foldl (semStep mx) s).active := by
  induction evs generalizing s with
  | nil => exact h
  | cons e rest ih =>
    simp only [List.foldl_cons]
    exact ih _ (semStep_nonneg mx s e h)

theorem semStepA_bound (mx : Int) (s : SemState) (e : SemEvA)
    (hmx : 1 ≤ mx) (h : SemBoundInv mx s) : SemBoundInv mx (semStepA mx s e) := by
  obtain ⟨h0, h1, h2⟩ := h
  cases e with
  | acquire c =>
    show SemBoundInv mx (semStep mx s (SemEv.acquire c))
    simp only [semStep]
    by_cases hlt : s.active < mx
    · rw [if_pos hlt]
      exact ⟨by dsimp only; omega, by dsimp only; omega, h2⟩
    · rw [if_neg hlt]
      exact ⟨h0, h1, h2⟩
  | release =>
    show SemBoundInv mx (atomicRelease mx s)
    simp only [atomicRelease]
    cases hq : s.queue with
    | nil =>
      simp only [semStep]
      rw [hq]
      dsimp only
      refine ⟨le_max_left 0 _, ?_, h2⟩
      have hb : (0 : Int) ⊔ (s.active - 1) ≤ mx := by
        rcases max_cases 0 (s.active - 1) with ⟨hm, _⟩ | ⟨hm, _⟩ <;> rw [hm] <;> omega
      exact hb
    | cons c rest =>
      simp only [semStep]
      rw [hq]
      dsimp only
      rw [h2]
      have hcontains : List.contains ([] ++ [c]) c = true := by simp
      rw [if_pos hcontains]
      refine ⟨?_, ?_, by simp⟩
      · have hb : (0 : Int) ≤ (0 : Int) ⊔ (s.active - 1) + 1 := by
          rcases max_cases 0 (s.active - 1) with ⟨hm, _⟩ | ⟨hm, _⟩ <;> rw [hm] <;> omega
        exact hb
      · have hb : (0 : Int) ⊔ (s.active - 1) + 1 ≤ mx := by
          rcases max_cases 0 (s.active - 1) with ⟨hm, _⟩ | ⟨hm, _⟩ <;> rw [hm] <;> omega
        exact hb

theorem semRunA_bound_aux (mx : Int) (evs : List SemEvA) (s : SemState)
    (hmx : 1 ≤ mx) (h : SemBoundInv mx s) :
    SemBoundInv mx (evs.foldl (semStepA mx) s) := by
  induction evs generalizing s with
  | nil => exact h
  | cons e rest ih =>
    simp only [List.foldl_cons]
    exact ih _ (semStepA_bound mx s e hmx h)

/-- C10 counterexample: an acquire interleaved between a release and the
woken waiter's resumption makes the resumed waiter increment past the
bound, so with bound one the active count reaches two. -/
theorem semaphore_overshoot_counterexample :
    (semRun 1 [SemEv.acquire 0, SemEv.acquire 1, SemEv.release,
      SemEv.acquire 2, SemEv.resume 1]).active = 2 ∧
    ¬ ((semRun 1 [SemEv.acquire 0, SemEv.acquire 1, SemEv.release,
      SemEv.acquire 2, SemEv.resume 1]).active ≤ 1) := by
  refine ⟨by decide, by decide⟩

/-- C10 amended: the active count never goes below zero in any
interleaving (release clamps at zero); an acquire returns immediately
exactly while active is below the bound, and otherwise only appends the
caller to the waiter queue; a waiter resumes only after being woken by a
release; and the two-sided invariant holds whenever each woken waiter
resumes before the next event is admitted, while an acquire slipped into
the wake-to-resume window can push the count above the bound. -/
theorem semaphore_invariants_amended :
    (∀ (mx : Int) (evs : List SemEv), 0 ≤ (semRun mx evs).active) ∧
    (∀ (mx : Int) (s : SemState) (c : Nat), s.active < mx →
      semStep mx s (SemEv.acquire c) = { s with active := s.active + 1 }) ∧
    (∀ (mx : Int) (s : SemState) (c : Nat), ¬ (s.active < mx) →
      semStep mx s (SemEv.acquire c) = { s with queue := s.queue ++ [c] }) ∧
    (∀ (mx : Int) (s : SemState) (c : Nat), s.woken.contains c = false →
      semStep mx s (SemEv.resume c) = s) ∧
    (∀ (mx : Int) (evs : List SemEvA), 1 ≤ mx →
      0 ≤ (semRunA mx evs).active ∧ (semRunA mx evs).active ≤ mx) := by
  refine ⟨?_, ?_, ?_, ?_, ?_⟩
  · intro mx evs
    exact semRun_nonneg_aux mx evs semInit (by unfold semInit; dsimp only; omega)
  · intro mx s c hlt
    simp only [semStep]
    rw [if_pos hlt]
  · intro mx s c hge
    simp only [semStep]
    rw [if_neg hge]
  · intro mx s c hnc
    simp only [semStep]
    rw [hnc]
    simp
  · intro mx evs hmx
    have hinv : SemBoundInv mx (semRunA mx evs) :=
      semRunA_bound_aux mx evs semInit hmx
        ⟨by unfold semInit; dsimp only; omega,
         by unfold semInit; dsimp only; omega, rfl⟩
    exact ⟨hinv.1, hinv.2.1⟩

/-- C10 witness: the amended bound at a concrete restricted trace and
the immediate-acquire characterization at a concrete state. -/
theorem semaphore_invariants_amended_witness :
    (0 ≤ (semRunA 1 [SemEvA.acquire 0, SemEvA.release, SemEvA.acquire 1]).active ∧
     (semRunA 1 [SemEvA.acquire 0, SemEvA.release, SemEvA.acquire 1]).active ≤ 1) ∧
    semStep 1 semInit (SemEv.acquire 0) = { semInit with active := semInit.active + 1 } := by
  constructor
  · exact semaphore_invariants_amended.2.2.2.2 1
      [SemEvA.acquire 0, SemEvA.release, SemEvA.acquire 1] (by decide)
  · exact semaphore_invariants_amended.2.1 1 semInit 0 (by decide)

theorem sep_no_overlap (d : Nat) (h1 : 1 ≤ d) (h2 : d ≤ 6) :
    sepL.drop d ≠ sepL.take (7 - d) := by
  interval_cases d <;> decide

theorem sep_split_unique_le (a b c d : List Char)
    (hlen : a.length ≤ c.length)
    (hc : ¬ List.IsInfix sepL c)
    (h : a ++ (sepL ++ b) = c ++ (sepL ++ d)) : a = c ∧ b = d := by
  have hsl : sepL.length = 7 := rfl
  rcases Nat.lt_or_ge a.length c.length with hlt | hge
  · exfalso
    have hdrop : sepL ++ b = c.drop a.length ++ (sepL ++ d) := by
      have h1 := congrArg (List.drop a.length) h
      rw [List.drop_left] at h1
      rw [List.drop_append_of_le_length (Nat.le_of_lt hlt)] at h1
      exact h1
    have hle : (c.drop a.length).length = c.length - a.length := List.length_drop _ _
    have htake7 := congrArg (List.take 7) hdrop
    rw [List.take_append_of_le_length (by omega), List.take_of_length_le (by omega)] at htake7
    rcases Nat.lt_or_ge (c.length - a.length) 7 with hsmall | hbig
    · have hd1 : 1 ≤ c.length - a.length := by omega
      rw [List.take_append_eq_append_take,
        List.take_of_length_le (by omega),
        List.take_append_of_le_length (by omega), hle] at htake7
      have h3 := congrArg (List.drop (c.drop a.length).length) htake7
      rw [List.drop_left, hle] at h3
      exact sep_no_overlap _ hd1 (by omega) h3
    · apply hc
      rw [List.take_append_of_le_length (by omega)] at htake7
      refine ⟨c.take a.length, (c.drop a.length).drop 7, ?_⟩
      have hsplit : c = c.take a.length ++ ((c.drop a.length).take 7 ++ (c.drop a.length).drop 7) := by
        rw [List.take_append_drop, List.take_append_drop]
      rw [← htake7] at hsplit
      rw [List.append_assoc]
      exact hsplit.symm
  · have heq : a.length = c.length := Nat.le_antisymm hlen hge
    obtain ⟨h1, h2⟩ := List.append_inj h heq
    exact ⟨h1, List.append_cancel_left h2⟩

theorem sep_split_unique (a b c d : List Char)
    (ha : ¬ List.IsInfix sepL a)
    (hc : ¬ List.IsInfix sepL c)
    (h : a ++ (sepL ++ b) = c ++ (sepL ++ d)) : a = c ∧ b = d := by
  rcases le_total a.length c.length with hle | hle
  · exact sep_split_unique_le a b c d hle hc h
  · obtain ⟨h1, h2⟩ := sep_split_unique_le c d a b hle ha h.symm
    exact ⟨h1.symm, h2.symm⟩

/-- C9 counterexample: two requests with different urls and different
trimmed hints can produce the same cache key when a url contains the
separator text. -/
theorem makeCacheKey_collision :
    makeCacheKey "centris.ca::hint=x" "" = makeCacheKey "centris.ca" "x::hint=" ∧
    ("centris.ca::hint=x" : String) ≠ "centris.ca" ∧
    jsTrim "" ≠ jsTrim "x::hint=" := by
  refine ⟨by decide, by decide, by decide⟩

/-- C9 amended: makeCacheKey is deterministic (it is a pure function of
url and hint), and for urls that do not contain the separator text the
key determines the url and the trimmed hint, so distinct
url-and-trimmed-hint pairs give distinct keys; a url containing the
separator text can collide with a different request. -/
theorem makeCacheKey_injective :
    ∀ (u1 h1 u2 h2 : String),
      ¬ List.IsInfix sepL u1.data → ¬ List.IsInfix sepL u2.data →
      makeCacheKey u1 h1 = makeCacheKey u2 h2 →
      u1 = u2 ∧ jsTrim h1 = jsTrim h2 := by
  intro u1 h1 u2 h2 hf1 hf2 hkey
  have hdata : u1.data ++ (sepL ++ (jsTrim h1).data) =
      u2.data ++ (sepL ++ (jsTrim h2).data) := by
    have hd := congrArg String.data hkey
    unfold makeCacheKey at hd
    rw [String.data_append, String.data_append, String.data_append, String.data_append,
      List.append_assoc, List.append_assoc] at hd
    exact hd
  obtain ⟨hu, hh⟩ := sep_split_unique _ _ _ _ hf1 hf2 hdata
  constructor
  · have := congrArg String.mk hu
    exact this
  · unfold jsTrim at hh ⊢
    have htr : (String.mk (trimWsL h1.data)).data = (String.mk (trimWsL h2.data)).data := hh
    exact congrArg String.mk htr

/-- C9 witness: the injectivity theorem at concrete separator-free urls. -/
theorem makeCacheKey_injective_witness :
    ("https://duproprio.com/a" : String) = "https://duproprio.com/a" ∧
    jsTrim " x " = jsTrim " x " :=
  makeCacheKey_injective "https://duproprio.com/a" " x " "https://duproprio.com/a" " x "
    (by decide) (by decide) rfl

/-- C7: ensureMonthlyFeesString is idempotent: applying it to its own
output yields the same result as applying it once, for every string. -/
theorem ensureMonthlyFeesString_idem :
    ∀ x : String,
      ensureMonthlyFeesString (ensureMonthlyFeesString x) = ensureMonthlyFeesString x := by
  intro x
  have hclean := cleanText_idem x
  by_cases h1 : cleanText x = "" ∨ cleanText x = "N/A"
  · have hfx : ensureMonthlyFeesString x = "N/A" := by
      rw [ensure_eval, if_pos h1]
    rw [hfx]
    decide
  · cases h2 : monthTest (cleanText x).data with
    | true =>
      have hfx : ensureMonthlyFeesString x = cleanText x := by
        rw [ensure_eval, if_neg h1, if_pos h2]
      rw [hfx, ensure_eval, hclean, if_neg h1, if_pos h2]
    | false =>
      cases h3 : yearTest (cleanText x).data with
      | true =>
        cases hm : moneyToNumber (cleanText x) with
        | none =>
          have hfx : ensureMonthlyFeesString x = cleanText x := by
            rw [ensure_eval, if_neg h1, if_neg (by simp [h2]), if_pos h3, hm]
          rw [hfx, ensure_eval, hclean, if_neg h1, if_neg (by simp [h2]),
            if_pos h3, hm]
        | some n =>
          have hfx : ensureMonthlyFeesString x =
              formatMoney ((jsRound (n / 12) : ℤ) : ℚ) ++ " / month" := by
            rw [ensure_eval, if_neg h1, if_neg (by simp [h2]), if_pos h3, hm]
          rw [hfx, ensure_month_output_fixed]
      | false =>
        cases hm : moneyToNumber (cleanText x) with
        | none =>
          have hfx : ensureMonthlyFeesString x = cleanText x := by
            rw [ensure_eval, if_neg h1, if_neg (by simp [h2]),
              if_neg (by simp [h3]), hm]
          rw [hfx, ensure_eval, hclean, if_neg h1, if_neg (by simp [h2]),
            if_neg (by simp [h3]), hm]
        | some n =>
          by_cases h4 : (1200 : ℚ) ≤ n
          · have hfx : ensureMonthlyFeesString x =
                formatMoney ((jsRound (n / 12) : ℤ) : ℚ) ++ " / month" := by
              rw [ensure_eval, if_neg h1, if_neg (by simp [h2]),
                if_neg (by simp [h3]), hm]
              dsimp only
              rw [if_pos h4]
            rw [hfx, ensure_month_output_fixed]
          · have hfx : ensureMonthlyFeesString x = cleanText x := by
              rw [ensure_eval, if_neg h1, if_neg (by simp [h2]),
                if_neg (by simp [h3]), hm]
              dsimp only
              rw [if_neg h4]
            rw [hfx, ensure_eval, hclean, if_neg h1, if_neg (by simp [h2]),
              if_neg (by simp [h3]), hm]
            dsimp only
            rw [if_neg h4]

end CleoSpec
